import Mathlib

/-!
# Verification of the Multithreaded TCP/UDP pub/sub system

Shallow embedding, in Lean 4, of the protocol core of the repository
`Multithreaded-TCP-UDP-Client-Server-Communication-System-with-Base64-Encoding`,
together with theorems settling the specification claims about it.

The repository contains two two-binary systems:

* `MultiThreading Project/client.cpp` (hybrid TCP/UDP pub/sub client with
  base64 payload transcoding) and `MultiThreading Project/server.cpp`
  (a Winsock thread-per-connection broker); embedded below in the
  namespaces `MTClient` and `MTServer`.
* `Assign 5/client.c` and `Assign 5/server.c` (an echo/ack variant with a
  client-side base64 encoder and a server-side decoder); embedded in the
  namespace `A5`.

Conventions of the embedding:

* C bytes (`char` / `unsigned char` values) are `Nat` with explicit
  `< 256` bounds or `% 256` reductions where C truncates.
* C text (`char*` / `std::string`) is `List Char` when the code treats it
  as characters (the base64 alphabet), `List Nat` when it treats it as raw
  bytes (wire buffers).
* Fallible C functions returning `bool` plus an out-parameter (or a
  pointer) become `Option`-valued functions.
* Sizes (`size_t`) are `Nat`, with an explicit `% 2 ^ 64` where the C
  computation can wrap, and C `int` values read off the wire are given
  their signed interpretation via `Int` where the sign matters.
-/

namespace MTClient

/-! ## Base64 transcoder of `MultiThreading Project/client.cpp`

Embeds `B64`, `REV`/`init_rev`, `b64_encode` and `b64_decode`
(client.cpp lines 106-150). -/

/-- The base64 alphabet, from
`static const char* B64 = "ABC...+/";` (client.cpp line 107). -/
def B64 : List Char :=
  "ABCDEFGHIJKLMNOPQRSTUVWXYZabcdefghijklmnopqrstuvwxyz0123456789+/".toList

/-- The reverse-lookup table built by `init_rev` (client.cpp lines 109-113):
every cell starts at 255, the 64 alphabet characters map to their index,
and the character `=` maps to 254.  Since `=` is not in the alphabet the
resulting table is the function below; `List.indexOf` returns the list
length 64 when the character is absent. -/
def REV (c : Char) : Nat :=
  if c = '=' then 254
  else if B64.indexOf c < 64 then B64.indexOf c
  else 255

/-- `b64_encode` (client.cpp lines 114-127).  The C loop consumes three
input bytes per iteration, forming `v = d[i]<<16 | d[i+1]<<8 | d[i+2]`
(with the guarded `|=` only when the bytes exist) and emitting four
characters; the third and fourth become `=` when fewer than two or three
bytes remain.  The recursion below has one case per residue of the
remaining length. -/
def b64_encode : List Nat → List Char
  | [] => []
  | [b0] =>
    let v := b0 <<< 16
    [B64.getD ((v >>> 18) &&& 63) 'A', B64.getD ((v >>> 12) &&& 63) 'A', '=', '=']
  | [b0, b1] =>
    let v := b0 <<< 16 ||| b1 <<< 8
    [B64.getD ((v >>> 18) &&& 63) 'A', B64.getD ((v >>> 12) &&& 63) 'A',
      B64.getD ((v >>> 6) &&& 63) 'A', '=']
  | b0 :: b1 :: b2 :: rest =>
    let v := b0 <<< 16 ||| b1 <<< 8 ||| b2
    B64.getD ((v >>> 18) &&& 63) 'A' :: B64.getD ((v >>> 12) &&& 63) 'A' ::
      B64.getD ((v >>> 6) &&& 63) 'A' :: B64.getD (v &&& 63) 'A' :: b64_encode rest

/-- The quad loop of `b64_decode` (client.cpp lines 132-148): each
iteration looks the four characters up in `REV`, fails if any lookup is
255, always emits the first byte, and emits the second and third byte
only when the third respectively fourth character is not `=`
(`REV` value 254).  The C locals `c0..c3` (the `REV` values) and the
accumulator `v` are inlined.  The catch-all case (fewer than four
characters remaining) is unreachable under the `size % 4` guard of
`b64_decode`. -/
def b64_decode_go : List Char → Option (List Nat)
  | [] => some []
  | c0 :: c1 :: c2 :: c3 :: rest =>
    if REV c0 = 255 ∨ REV c1 = 255 ∨ REV c2 = 255 ∨ REV c3 = 255 then none
    else if REV c2 = 254 then
      (b64_decode_go rest).map fun t =>
        (((REV c0 <<< 18 ||| REV c1 <<< 12) >>> 16) &&& 255) :: t
    else if REV c3 = 254 then
      (b64_decode_go rest).map fun t =>
        (((REV c0 <<< 18 ||| REV c1 <<< 12) >>> 16) &&& 255) ::
          (((REV c0 <<< 18 ||| REV c1 <<< 12 ||| REV c2 <<< 6) >>> 8) &&& 255) :: t
    else
      (b64_decode_go rest).map fun t =>
        (((REV c0 <<< 18 ||| REV c1 <<< 12) >>> 16) &&& 255) ::
          (((REV c0 <<< 18 ||| REV c1 <<< 12 ||| REV c2 <<< 6) >>> 8) &&& 255) ::
          ((REV c0 <<< 18 ||| REV c1 <<< 12 ||| REV c2 <<< 6 ||| REV c3) &&& 255) :: t
  | _ => none

/-- `b64_decode` (client.cpp lines 128-150): rejects input whose length is
not a multiple of four (`if(in.size()%4) return false;`), then runs the
quad loop. -/
def b64_decode (s : List Char) : Option (List Nat) :=
  if s.length % 4 ≠ 0 then none else b64_decode_go s

/-! ## Protocol constants and wire format of `MultiThreading Project/client.cpp` -/

/-- `const int SUBSCRIBE = 1;` (client.cpp line 19). -/
def SUBSCRIBE : Nat := 1

/-- `const int PUBLISH = 2;` (client.cpp line 20). -/
def PUBLISH : Nat := 2

/-- `const int MSG = 3;` (client.cpp line 21), the delivery frame type. -/
def MSG : Nat := 3

/-- `const int ACK = 4;` (client.cpp line 22). -/
def ACK : Nat := 4

/-- `const int TERM = 5;` (client.cpp line 23). -/
def TERM : Nat := 5

/-- The four bytes `htonl` stores for a 32-bit value: most significant
byte first (network byte order). -/
def be32 (x : Nat) : List Nat :=
  [x / 2 ^ 24 % 256, x / 2 ^ 16 % 256, x / 2 ^ 8 % 256, x % 256]

/-- The byte sequence put on the wire by `send_packet_tcp` (client.cpp
lines 49-55) and, identically, the datagram buffer built by
`send_packet_udp` (lines 68-76): the 12-byte `Header` holding
`htonl(type)`, `htonl((int)topic.size())`, `htonl((int)payload.size())`,
followed by the raw topic bytes and then the raw payload bytes, nothing
between them.  The casts of the `size_t` sizes through `int` into the
32-bit header fields are made explicit by the `% 2 ^ 32`. -/
def send_packet (type : Nat) (topic payload : List Nat) : List Nat :=
  be32 (type % 2 ^ 32) ++ be32 (topic.length % 2 ^ 32)
    ++ be32 (payload.length % 2 ^ 32) ++ topic ++ payload

/-- Value of `ntohl(f)` for a header field `f` that was `memcpy`ed from
the four received bytes starting at offset `i`: the big-endian 32-bit
value of those bytes. -/
def ntohl_at (data : List Nat) (i : Nat) : Nat :=
  data.getD i 0 % 256 * 2 ^ 24 + data.getD (i + 1) 0 % 256 * 2 ^ 16
    + data.getD (i + 2) 0 % 256 * 2 ^ 8 + data.getD (i + 3) 0 % 256

/-- Signed reading of a 32-bit value: `parse_datagram` stores the `ntohl`
results in C `int` variables. -/
def toInt32 (x : Nat) : Int :=
  if x % 2 ^ 32 < 2 ^ 31 then ((x % 2 ^ 32 : Nat) : Int)
  else ((x % 2 ^ 32 : Nat) : Int) - 2 ^ 32

/-- The C cast `(size_t)v` of an `int` value: two's-complement reduction
modulo `2 ^ 64`. -/
def toSizeT (v : Int) : Nat := (v % 2 ^ 64).toNat

/-- `parse_datagram` (client.cpp lines 79-91).  Fails when fewer than
`sizeof(Header) = 12` bytes were received, reads the three header fields,
and fails when `n < need` for
`need = sizeof(h) + (size_t)tlen + (size_t)plen` — computed in `size_t`
arithmetic, so the sum wraps modulo `2 ^ 64`.  Otherwise
`topic.assign(data + 12, (size_t)tlen)` and
`payload.assign(data + 12 + tlen, (size_t)plen)` are modelled with
`drop`/`take`; `take` truncates at the end of the list where the C code
keeps reading `(size_t)tlen` bytes past the received buffer (claim C7). -/
def parse_datagram (data : List Nat) : Option (Int × List Nat × List Nat) :=
  if data.length < 12 then none
  else
    let type := toInt32 (ntohl_at data 0)
    let tlen := toInt32 (ntohl_at data 4)
    let plen := toInt32 (ntohl_at data 8)
    let need := (12 + toSizeT tlen + toSizeT plen) % 2 ^ 64
    if data.length < need then none
    else some (type, (data.drop 12).take (toSizeT tlen),
      (data.drop ((12 + toSizeT tlen) % 2 ^ 64)).take (toSizeT plen))

end MTClient

namespace MTServer

/-! ## Broker of `MultiThreading Project/server.cpp`

Embeds the type codes, the `Message` struct, the shared `clients` vector
with its `clients_mtx`, and the dispatch performed by one iteration of
`handle_client` (server.cpp lines 37-81). -/

/-- `#define TYPE_SUBSCRIBE 10` (server.cpp line 15). -/
def TYPE_SUBSCRIBE : Nat := 10

/-- `#define TYPE_PUBLISH 11` (server.cpp line 16). -/
def TYPE_PUBLISH : Nat := 11

/-- `#define TYPE_MSG 12` (server.cpp line 17), the delivery frame type. -/
def TYPE_MSG : Nat := 12

/-- `#define TYPE_ACK 2` (server.cpp line 18). -/
def TYPE_ACK : Nat := 2

/-- `#define TYPE_TERM 3` (server.cpp line 19). -/
def TYPE_TERM : Nat := 3

/-- `#define TOPIC_LEN 64` (server.cpp line 10). -/
def TOPIC_LEN : Nat := 64

/-- `#define MSG_LEN 1024` (server.cpp line 11). -/
def MSG_LEN : Nat := 1024

/-- The frame struct of server.cpp lines 21-26:
`int type; char topic[TOPIC_LEN]; int payload_len; char content[MSG_LEN];`.
The two fixed-size char arrays are modelled by the strings they carry. -/
structure Message where
  type : Nat
  topic : String
  payload_len : Nat
  content : String
deriving Repr, DecidableEq

/-- `sizeof(Message)`: the server's `recv`/`send` always move this fixed
byte count per frame — `4 + 64 + 4 + 1024` (four-byte `int`s, no padding
needed since every field offset is 4-aligned). -/
def MessageSize : Nat := 4 + TOPIC_LEN + 4 + MSG_LEN

/-- A registry entry, `struct ClientInfo` (server.cpp lines 28-32): one
socket, one `topic` string and one `subscribed` flag — each client record
can hold at most a single topic. -/
structure ClientInfo where
  sock : Nat
  topic : String
  subscribed : Bool
deriving Repr, DecidableEq

/-- The snapshot the fan-out loop ranges over: the clients that are
subscribed with exactly the published topic (`c.subscribed && c.topic ==
msg.topic`, server.cpp line 66). -/
def subscribers_of (clients : List ClientInfo) (topic : String) :
    List ClientInfo :=
  clients.filter fun c => c.subscribed && c.topic == topic

/-- The mutation done by the `TYPE_SUBSCRIBE` branch (server.cpp lines
47-54): every entry of the shared `clients` vector whose socket equals the
sender's gets `subscribed = true` and its single `topic` field overwritten
with the request's topic. -/
def subscribe_step (clients : List ClientInfo) (sock : Nat) (topic : String) :
    List ClientInfo :=
  clients.map fun c =>
    if c.sock = sock then { c with subscribed := true, topic := topic } else c

/-- The ACK frame built by both the subscribe and the publish branch
(server.cpp lines 56-59 and 70-73): a zero-initialised `Message` with
`type = TYPE_ACK` and the request's topic copied in. -/
def ackOf (topic : String) : Message :=
  { type := TYPE_ACK, topic := topic, payload_len := 0, content := "" }

/-- The fan-out loop of the `TYPE_PUBLISH` branch (server.cpp lines
65-69): the received frame `msg` itself is sent, in vector order, to every
client that is subscribed with the frame's topic. -/
def fanout : List ClientInfo → Message → List (Nat × Message)
  | [], _ => []
  | c :: cs, msg =>
    if c.subscribed && c.topic == msg.topic then (c.sock, msg) :: fanout cs msg
    else fanout cs msg

/-- One iteration of the `handle_client` loop (server.cpp lines 39-80) on
a successfully received frame: returns the new shared client list, the
frames sent as `(socket, frame)` pairs in send order, and whether the
handler keeps looping (`false` exactly when it ran `closesocket` and
returned, i.e. on `TYPE_TERM`).  Frames of any other unknown type fall
through the `if`/`else if` chain and are ignored. -/
def handle_message (clients : List ClientInfo) (sock : Nat) (msg : Message) :
    List ClientInfo × List (Nat × Message) × Bool :=
  if msg.type = TYPE_SUBSCRIBE then
    (subscribe_step clients sock msg.topic, [(sock, ackOf msg.topic)], true)
  else if msg.type = TYPE_PUBLISH then
    (clients, fanout clients msg ++ [(sock, ackOf msg.topic)], true)
  else if msg.type = TYPE_TERM then
    (clients, [], false)
  else
    (clients, [], true)

/-- Events of the `TYPE_PUBLISH` branch in program order, for reasoning
about the lock discipline. -/
inductive Ev
  | acquire
  | send (sock : Nat) (msg : Message)
  | release
deriving Repr, DecidableEq

/-- The event trace of the `TYPE_PUBLISH` branch (server.cpp lines
61-74): `lock_guard<mutex> lock(clients_mtx)` is constructed before the
fan-out loop, every fan-out `send` and the final ACK `send` happen inside
the branch's block, and the `lock_guard` is destroyed — releasing
`clients_mtx` — only at the closing brace after the ACK is sent. -/
def publish_trace (clients : List ClientInfo) (sock : Nat) (msg : Message) :
    List Ev :=
  Ev.acquire :: ((fanout clients msg).map fun p => Ev.send p.1 p.2)
    ++ [Ev.send sock (ackOf msg.topic), Ev.release]

/-- Whether some `send` event of the trace happens while the mutex is
held, starting from `d` outstanding acquisitions. -/
def sendsWhileLocked : List Ev → Nat → Bool
  | [], _ => false
  | Ev.acquire :: r, d => sendsWhileLocked r (d + 1)
  | Ev.release :: r, d => sendsWhileLocked r (d - 1)
  | Ev.send _ _ :: r, d => decide (0 < d) || sendsWhileLocked r d

end MTServer

namespace A5

/-! ## Echo/ack variant of `Assign 5/client.c` and `Assign 5/server.c`

Embeds the client-side `base64_encode` (client.c lines 30-55) and the
server-side `base64_decode` (server.c lines 45-81). -/

/-- `static const char base64_chars[] = "ABC...+/";`
(client.c line 22 and server.c line 36). -/
def base64_chars : List Char :=
  "ABCDEFGHIJKLMNOPQRSTUVWXYZabcdefghijklmnopqrstuvwxyz0123456789+/".toList

/-- One iteration of the `base64_encode` loop (client.c lines 37-48):
three input octets (0 when past the end of the input) form
`triple = (octet_a << 0x10) + (octet_b << 0x08) + octet_c`, which yields
four alphabet characters. -/
def encode_chunk (b0 b1 b2 : Nat) : List Char :=
  let triple := (b0 <<< 16) + (b1 <<< 8) + b2
  [base64_chars.getD ((triple >>> 18) &&& 63) 'A',
    base64_chars.getD ((triple >>> 12) &&& 63) 'A',
    base64_chars.getD ((triple >>> 6) &&& 63) 'A',
    base64_chars.getD (triple &&& 63) 'A']

/-- The whole `base64_encode` loop over the input. -/
def encode_loop : List Nat → List Char
  | [] => []
  | [b0] => encode_chunk b0 0 0
  | [b0, b1] => encode_chunk b0 b1 0
  | b0 :: b1 :: b2 :: rest => encode_chunk b0 b1 b2 ++ encode_loop rest

/-- The number of trailing characters the final loop of `base64_encode`
overwrites with `=`: `(3 - input_len % 3) % 3` (client.c lines 50-51). -/
def padOf (n : Nat) : Nat := (3 - n % 3) % 3

/-- `base64_encode` (client.c lines 30-55): the chunk loop fills the
`4 * ((input_len + 2) / 3)`-character output, then the last `padOf`
characters are overwritten with `=`. -/
def base64_encode (s : List Nat) : List Char :=
  let raw := encode_loop s
  raw.take (raw.length - padOf s.length) ++ List.replicate (padOf s.length) '='

/-- `strchr(base64_chars, c) - base64_chars` (server.c lines 63-64): the
index of `c` in the alphabet; `none` stands for the undefined pointer
difference when `strchr` returns `NULL` (character not in the alphabet). -/
def lookup (c : Char) : Option Nat :=
  if base64_chars.indexOf c < 64 then some (base64_chars.indexOf c) else none

/-- The value taken for the third and fourth character of a quad
(server.c lines 65-66): a literal `=` contributes 0, any other character
its alphabet index. -/
def lookup_pad (c : Char) : Option Nat :=
  if c = '=' then some 0 else lookup c

/-- The decoding loop of `base64_decode` (server.c lines 61-77): each quad
yields the three bytes `(a<<2)|(b>>4)`, `(b<<4)|(c>>2)`, `(c<<6)|d` in
`unsigned char` arithmetic (hence the `% 256`).  The write-back loop
`for (j = 0; j < 3 && (i*3/4+j) < output_len; j++)` writes the triples
consecutively, cut off at `output_len` — the cut is applied by
`base64_decode` below via `take`. -/
def decode_quads : List Char → Option (List Nat)
  | [] => some []
  | c0 :: c1 :: c2 :: c3 :: rest =>
    match lookup c0, lookup c1, lookup_pad c2, lookup_pad c3,
        decode_quads rest with
    | some a, some b, some c, some d, some r =>
      some ((((a <<< 2) ||| (b >>> 4)) % 256)
        :: (((b <<< 4) ||| (c >>> 2)) % 256)
        :: (((c <<< 6) ||| d) % 256) :: r)
    | _, _, _, _, _ => none
  | _ => none

/-- `base64_decode` (server.c lines 45-81): `output_len` is
`input_len / 4 * 3`, decremented once if the last character is `=` and
once more if the second-to-last is `=`; the quad loop then fills the first
`output_len` bytes.  The model returns `none` where the C code has
undefined behaviour: on the empty string (the padding checks read
`input[input_len - 1]` and `input[input_len - 2]`, i.e. before the start
of the buffer) and on lengths that are not a multiple of four (the quad
loop reads past the end of the input). -/
def base64_decode (s : List Char) : Option (List Nat) :=
  if s.length = 0 then none
  else if s.length % 4 ≠ 0 then none
  else
    let out_len := s.length / 4 * 3
      - (if s.getD (s.length - 1) ' ' = '=' then 1 else 0)
      - (if s.getD (s.length - 2) ' ' = '=' then 1 else 0)
    (decode_quads s).map fun bytes => bytes.take out_len

end A5

namespace MTClient

/-- Specification-side count of `=` characters the encoder appends, as a
function of the input length (used in claim C9): two for a trailing
single byte, one for a trailing pair, none otherwise. -/
def padCount (n : Nat) : Nat :=
  if n % 3 = 0 then 0 else if n % 3 = 1 then 2 else 1

/-! ### Arithmetic helpers for the bit manipulations of the transcoder -/

/-- Bitwise or of disjoint values is addition (low part below `2 ^ k`). -/
theorem lor_disj {k : Nat} (a b : Nat) (ha : a % 2 ^ k = 0) (hb : b < 2 ^ k) :
    a ||| b = a + b := by
  obtain ⟨c, rfl⟩ := Nat.dvd_of_mod_eq_zero ha
  exact (Nat.mul_add_lt_is_or hb c).symm

/-- Bitwise or of a left shift with a value below the shift is addition. -/
theorem or_shift {k : Nat} (a b : Nat) (hb : b < 2 ^ k) :
    a <<< k ||| b = a * 2 ^ k + b := by
  rw [Nat.shiftLeft_eq, Nat.mul_comm a (2 ^ k), ← Nat.mul_add_lt_is_or hb a]

theorem and63 (x : Nat) : x &&& 63 = x % 64 := Nat.and_pow_two_sub_one_eq_mod x 6

theorem and255 (x : Nat) : x &&& 255 = x % 256 := Nat.and_pow_two_sub_one_eq_mod x 8

theorem shr (x k : Nat) : x >>> k = x / 2 ^ k := Nat.shiftRight_eq_div_pow x k

/-- Looking an alphabet character back up in `REV` recovers its index. -/
theorem REV_getD : ∀ e, e < 64 → REV (B64.getD e 'A') = e := by decide

/-- First byte recovered by the decoder quad arithmetic. -/
theorem quad_b0 (x y : Nat) (hx : x < 64) (hy : y < 64) :
    ((x <<< 18 ||| y <<< 12) >>> 16) &&& 255 = x * 4 + y / 16 := by
  have h1 : x <<< 18 ||| y <<< 12 = x * 2 ^ 18 + y * 2 ^ 12 := by
    rw [or_shift (k := 18) x (y <<< 12) (by rw [Nat.shiftLeft_eq]; omega),
      Nat.shiftLeft_eq]
  rw [h1, shr, and255]
  omega

/-- Second byte recovered by the decoder quad arithmetic. -/
theorem quad_b1 (x y z : Nat) (hy : y < 64) (hz : z < 64) :
    ((x <<< 18 ||| y <<< 12 ||| z <<< 6) >>> 8) &&& 255 = y % 16 * 16 + z / 4 := by
  have h1 : x <<< 18 ||| y <<< 12 = x * 2 ^ 18 + y * 2 ^ 12 := by
    rw [or_shift (k := 18) x (y <<< 12) (by rw [Nat.shiftLeft_eq]; omega),
      Nat.shiftLeft_eq]
  have h2 : x <<< 18 ||| y <<< 12 ||| z <<< 6
      = x * 2 ^ 18 + y * 2 ^ 12 + z * 2 ^ 6 := by
    rw [h1, lor_disj (k := 12) _ (z <<< 6) (by omega) (by rw [Nat.shiftLeft_eq]; omega),
      Nat.shiftLeft_eq]
  rw [h2, shr, and255]
  omega

/-- Third byte recovered by the decoder quad arithmetic. -/
theorem quad_b2 (x y z w : Nat) (hy : y < 64) (hz : z < 64) (hw : w < 64) :
    (x <<< 18 ||| y <<< 12 ||| z <<< 6 ||| w) &&& 255 = z % 4 * 64 + w := by
  have h1 : x <<< 18 ||| y <<< 12 = x * 2 ^ 18 + y * 2 ^ 12 := by
    rw [or_shift (k := 18) x (y <<< 12) (by rw [Nat.shiftLeft_eq]; omega),
      Nat.shiftLeft_eq]
  have h2 : x <<< 18 ||| y <<< 12 ||| z <<< 6
      = x * 2 ^ 18 + y * 2 ^ 12 + z * 2 ^ 6 := by
    rw [h1, lor_disj (k := 12) _ (z <<< 6) (by omega) (by rw [Nat.shiftLeft_eq]; omega),
      Nat.shiftLeft_eq]
  have h3 : x <<< 18 ||| y <<< 12 ||| z <<< 6 ||| w
      = x * 2 ^ 18 + y * 2 ^ 12 + z * 2 ^ 6 + w := by
    rw [h2, lor_disj (k := 6) _ w (by omega) (by omega)]
  rw [h3, and255]
  omega

/-- Characters produced by the encoder for a full three-byte group. -/
theorem chunk3_chars (b0 b1 b2 : Nat) (h0 : b0 < 256) (h1 : b1 < 256)
    (h2 : b2 < 256) :
    (((b0 <<< 16 ||| b1 <<< 8 ||| b2) >>> 18) &&& 63 = b0 / 4) ∧
    (((b0 <<< 16 ||| b1 <<< 8 ||| b2) >>> 12) &&& 63 = b0 % 4 * 16 + b1 / 16) ∧
    (((b0 <<< 16 ||| b1 <<< 8 ||| b2) >>> 6) &&& 63 = b1 % 16 * 4 + b2 / 64) ∧
    ((b0 <<< 16 ||| b1 <<< 8 ||| b2) &&& 63 = b2 % 64) := by
  have hv : b0 <<< 16 ||| b1 <<< 8 ||| b2 = b0 * 2 ^ 16 + b1 * 2 ^ 8 + b2 := by
    rw [or_shift (k := 16) b0 (b1 <<< 8) (by rw [Nat.shiftLeft_eq]; omega),
      Nat.shiftLeft_eq,
      lor_disj (k := 8) _ b2 (by omega) (by omega)]
  refine ⟨?_, ?_, ?_, ?_⟩ <;> rw [hv] <;> first
    | (rw [shr, and63]; omega)
    | (rw [and63]; omega)

/-- Characters produced by the encoder for a trailing two-byte group. -/
theorem chunk2_chars (b0 b1 : Nat) (h0 : b0 < 256) (h1 : b1 < 256) :
    (((b0 <<< 16 ||| b1 <<< 8) >>> 18) &&& 63 = b0 / 4) ∧
    (((b0 <<< 16 ||| b1 <<< 8) >>> 12) &&& 63 = b0 % 4 * 16 + b1 / 16) ∧
    (((b0 <<< 16 ||| b1 <<< 8) >>> 6) &&& 63 = b1 % 16 * 4) := by
  have hv : b0 <<< 16 ||| b1 <<< 8 = b0 * 2 ^ 16 + b1 * 2 ^ 8 := by
    rw [or_shift (k := 16) b0 (b1 <<< 8) (by rw [Nat.shiftLeft_eq]; omega),
      Nat.shiftLeft_eq]
  refine ⟨?_, ?_, ?_⟩ <;> rw [hv, shr, and63] <;> omega

/-- Characters produced by the encoder for a trailing one-byte group. -/
theorem chunk1_chars (b0 : Nat) (h0 : b0 < 256) :
    (((b0 <<< 16) >>> 18) &&& 63 = b0 / 4) ∧
    (((b0 <<< 16) >>> 12) &&& 63 = b0 % 4 * 16) := by
  rw [Nat.shiftLeft_eq, shr, shr, and63, and63]
  omega

/-- The decoder quad loop is a left inverse of the encoder. -/
theorem b64_decode_go_encode (x : List Nat) (hx : ∀ b ∈ x, b < 256) :
    b64_decode_go (b64_encode x) = some x := by
  induction x using b64_encode.induct with
  | case1 => rfl
  | case2 b0 =>
    have h0 : b0 < 256 := hx _ (by simp)
    obtain ⟨e18, e12⟩ := chunk1_chars b0 h0
    simp only [b64_encode, b64_decode_go, e18, e12]
    rw [REV_getD _ (by omega), REV_getD _ (by omega)]
    rw [if_neg (by simp [REV]; omega)]
    rw [if_pos (by simp [REV])]
    have hb0 : ((b0 / 4) <<< 18 ||| (b0 % 4 * 16) <<< 12) >>> 16 &&& 255 = b0 := by
      rw [quad_b0 _ _ (by omega) (by omega)]; omega
    rw [hb0]
    rfl
  | case3 b0 b1 =>
    have h0 : b0 < 256 := hx _ (by simp)
    have h1 : b1 < 256 := hx _ (by simp)
    obtain ⟨e18, e12, e6⟩ := chunk2_chars b0 b1 h0 h1
    simp only [b64_encode, b64_decode_go, e18, e12, e6]
    rw [REV_getD _ (by omega), REV_getD _ (by omega), REV_getD _ (by omega)]
    rw [if_neg (by simp [REV]; omega)]
    rw [if_neg (by omega)]
    rw [if_pos (by simp [REV])]
    have hb0 : ((b0 / 4) <<< 18 ||| (b0 % 4 * 16 + b1 / 16) <<< 12) >>> 16 &&& 255
        = b0 := by
      rw [quad_b0 _ _ (by omega) (by omega)]; omega
    have hb1 : ((b0 / 4) <<< 18 ||| (b0 % 4 * 16 + b1 / 16) <<< 12
        ||| (b1 % 16 * 4) <<< 6) >>> 8 &&& 255 = b1 := by
      rw [quad_b1 _ _ _ (by omega) (by omega)]; omega
    rw [hb0, hb1]
    rfl
  | case4 b0 b1 b2 rest ih =>
    have h0 : b0 < 256 := hx _ (by simp)
    have h1 : b1 < 256 := hx _ (by simp)
    have h2 : b2 < 256 := hx _ (by simp)
    have hrest : ∀ b ∈ rest, b < 256 := fun b hb => hx b (by simp [hb])
    obtain ⟨e18, e12, e6, e0⟩ := chunk3_chars b0 b1 b2 h0 h1 h2
    simp only [b64_encode, b64_decode_go, e18, e12, e6, e0]
    rw [REV_getD _ (by omega), REV_getD _ (by omega), REV_getD _ (by omega),
      REV_getD _ (by omega)]
    rw [if_neg (by omega)]
    rw [if_neg (by omega)]
    rw [if_neg (by omega)]
    have hb0 : ((b0 / 4) <<< 18 ||| (b0 % 4 * 16 + b1 / 16) <<< 12) >>> 16 &&& 255
        = b0 := by
      rw [quad_b0 _ _ (by omega) (by omega)]; omega
    have hb1 : ((b0 / 4) <<< 18 ||| (b0 % 4 * 16 + b1 / 16) <<< 12
        ||| (b1 % 16 * 4 + b2 / 64) <<< 6) >>> 8 &&& 255 = b1 := by
      rw [quad_b1 _ _ _ (by omega) (by omega)]; omega
    have hb2 : ((b0 / 4) <<< 18 ||| (b0 % 4 * 16 + b1 / 16) <<< 12
        ||| (b1 % 16 * 4 + b2 / 64) <<< 6 ||| b2 % 64) &&& 255 = b2 := by
      rw [quad_b2 _ _ _ _ (by omega) (by omega) (by omega)]; omega
    rw [hb0, hb1, hb2, ih hrest]
    rfl

/-- Length of the encoder output: four characters per started three-byte
group. -/
theorem b64_encode_length (x : List Nat) :
    (b64_encode x).length = 4 * ((x.length + 2) / 3) := by
  induction x using b64_encode.induct with
  | case1 => rfl
  | case2 b0 => simp [b64_encode]
  | case3 b0 b1 => simp [b64_encode]
  | case4 b0 b1 b2 rest ih =>
    simp only [b64_encode, List.length_cons, ih]
    omega

/-- Indexing into the alphabet at a position below 64 yields an alphabet
character. -/
theorem getD_mem_B64 : ∀ e, e < 64 → B64.getD e 'A' ∈ B64 := by decide

/-- The padding character is not in the alphabet. -/
theorem eq_char_not_mem_B64 : '=' ∉ B64 := by decide

/-- Shape of the encoder output: a run of alphabet characters followed by
exactly `padCount` copies of `=`. -/
theorem b64_encode_shape (x : List Nat) :
    ∃ p, b64_encode x = p ++ List.replicate (padCount x.length) '=' ∧
      ∀ c ∈ p, c ∈ B64 := by
  induction x using b64_encode.induct with
  | case1 => exact ⟨[], rfl, by simp⟩
  | case2 b0 =>
    refine ⟨[B64.getD (((b0 <<< 16) >>> 18) &&& 63) 'A',
      B64.getD (((b0 <<< 16) >>> 12) &&& 63) 'A'], ?_, ?_⟩
    · simp [b64_encode, padCount]
    · intro c hc
      simp only [List.mem_cons, List.not_mem_nil, or_false] at hc
      rcases hc with rfl | rfl <;>
        exact getD_mem_B64 _ (by rw [and63]; omega)
  | case3 b0 b1 =>
    refine ⟨[B64.getD (((b0 <<< 16 ||| b1 <<< 8) >>> 18) &&& 63) 'A',
      B64.getD (((b0 <<< 16 ||| b1 <<< 8) >>> 12) &&& 63) 'A',
      B64.getD (((b0 <<< 16 ||| b1 <<< 8) >>> 6) &&& 63) 'A'], ?_, ?_⟩
    · simp [b64_encode, padCount]
    · intro c hc
      simp only [List.mem_cons, List.not_mem_nil, or_false] at hc
      rcases hc with rfl | rfl | rfl <;>
        exact getD_mem_B64 _ (by rw [and63]; omega)
  | case4 b0 b1 b2 rest ih =>
    obtain ⟨p, hp, hmem⟩ := ih
    refine ⟨B64.getD (((b0 <<< 16 ||| b1 <<< 8 ||| b2) >>> 18) &&& 63) 'A' ::
      B64.getD (((b0 <<< 16 ||| b1 <<< 8 ||| b2) >>> 12) &&& 63) 'A' ::
      B64.getD (((b0 <<< 16 ||| b1 <<< 8 ||| b2) >>> 6) &&& 63) 'A' ::
      B64.getD ((b0 <<< 16 ||| b1 <<< 8 ||| b2) &&& 63) 'A' :: p, ?_, ?_⟩
    · have hpad : padCount (rest.length + 1 + 1 + 1) = padCount rest.length := by
        simp only [padCount]
        have h3 : (rest.length + 1 + 1 + 1) % 3 = rest.length % 3 := by omega
        simp only [h3]
      simp [b64_encode, hpad, hp]
    · intro c hc
      simp only [List.mem_cons] at hc
      rcases hc with rfl | rfl | rfl | rfl | hc
      · exact getD_mem_B64 _ (by rw [and63]; omega)
      · exact getD_mem_B64 _ (by rw [and63]; omega)
      · exact getD_mem_B64 _ (by rw [and63]; omega)
      · exact getD_mem_B64 _ (by rw [and63]; omega)
      · exact hmem c hc

end MTClient

namespace MTClient

/-- `REV` yields the sentinel 255 exactly for characters that are neither
in the alphabet nor `=`. -/
theorem REV_eq_255_iff (c : Char) : REV c = 255 ↔ c ∉ B64 ∧ c ≠ '=' := by
  have hlen : B64.length = 64 := by decide
  unfold REV
  by_cases he : c = '='
  · simp [he]
  · rw [if_neg he]
    by_cases hidx : B64.indexOf c < 64
    · rw [if_pos hidx]
      have hmem : c ∈ B64 := List.indexOf_lt_length.mp (by omega)
      constructor
      · intro h; omega
      · rintro ⟨hn, -⟩; exact absurd hmem hn
    · rw [if_neg hidx]
      have hmem : c ∉ B64 := fun hm => hidx (by
        have := List.indexOf_lt_length.mpr hm
        omega)
      simp [hmem, he]

/-- On input of length a multiple of four, the quad loop fails exactly
when some character has `REV` value 255. -/
theorem go_none_iff (s : List Char) :
    s.length % 4 = 0 → (b64_decode_go s = none ↔ ∃ c ∈ s, REV c = 255) := by
  induction s using b64_decode_go.induct with
  | case1 => intro _; simp [b64_decode_go]
  | case2 c0 c1 c2 c3 rest h255 =>
    intro _
    simp only [b64_decode_go, if_pos h255]
    constructor
    · intro _
      rcases h255 with h | h | h | h
      · exact ⟨c0, by simp, h⟩
      · exact ⟨c1, by simp, h⟩
      · exact ⟨c2, by simp, h⟩
      · exact ⟨c3, by simp, h⟩
    · intro _; trivial
  | case3 c0 c1 c2 c3 rest h255 h254 ih =>
    intro hlen
    have hr : rest.length % 4 = 0 := by
      simp only [List.length_cons] at hlen; omega
    simp only [b64_decode_go, if_neg h255, if_pos h254, Option.map_eq_none']
    rw [ih hr]
    push_neg at h255
    obtain ⟨n0, n1, n2, n3⟩ := h255
    constructor
    · rintro ⟨c, hc, h⟩; exact ⟨c, by simp [hc], h⟩
    · rintro ⟨c, hc, h⟩
      simp only [List.mem_cons] at hc
      rcases hc with rfl | rfl | rfl | rfl | hc
      · exact absurd h n0
      · exact absurd h n1
      · exact absurd h n2
      · exact absurd h n3
      · exact ⟨c, hc, h⟩
  | case4 c0 c1 c2 c3 rest h255 h2 h254 ih =>
    intro hlen
    have hr : rest.length % 4 = 0 := by
      simp only [List.length_cons] at hlen; omega
    simp only [b64_decode_go, if_neg h255, if_neg h2, if_pos h254,
      Option.map_eq_none']
    rw [ih hr]
    push_neg at h255
    obtain ⟨n0, n1, n2, n3⟩ := h255
    constructor
    · rintro ⟨c, hc, h⟩; exact ⟨c, by simp [hc], h⟩
    · rintro ⟨c, hc, h⟩
      simp only [List.mem_cons] at hc
      rcases hc with rfl | rfl | rfl | rfl | hc
      · exact absurd h n0
      · exact absurd h n1
      · exact absurd h n2
      · exact absurd h n3
      · exact ⟨c, hc, h⟩
  | case5 c0 c1 c2 c3 rest h255 h2 h3 ih =>
    intro hlen
    have hr : rest.length % 4 = 0 := by
      simp only [List.length_cons] at hlen; omega
    simp only [b64_decode_go, if_neg h255, if_neg h2, if_neg h3,
      Option.map_eq_none']
    rw [ih hr]
    push_neg at h255
    obtain ⟨n0, n1, n2, n3⟩ := h255
    constructor
    · rintro ⟨c, hc, h⟩; exact ⟨c, by simp [hc], h⟩
    · rintro ⟨c, hc, h⟩
      simp only [List.mem_cons] at hc
      rcases hc with rfl | rfl | rfl | rfl | hc
      · exact absurd h n0
      · exact absurd h n1
      · exact absurd h n2
      · exact absurd h n3
      · exact ⟨c, hc, h⟩
  | case6 t hnil hcons =>
    intro hlen
    exfalso
    rcases t with _ | ⟨a, _ | ⟨b, _ | ⟨c, _ | ⟨d, r⟩⟩⟩⟩
    · exact hnil rfl
    · simp at hlen
    · simp at hlen
    · simp at hlen
    · exact hcons a b c d r rfl

end MTClient

/-! ## Claim theorems -/

/-- C1: for every byte sequence `x`, including the empty sequence,
decoding the base64 encoding of `x` succeeds and yields exactly `x`:
`b64_decode(b64_encode(x))` returns `x` (client.cpp `b64_encode`,
`b64_decode`). -/
theorem C1_b64_roundtrip (x : List Nat) (hx : ∀ b ∈ x, b < 256) :
    MTClient.b64_decode (MTClient.b64_encode x) = some x := by
  have hlen : (MTClient.b64_encode x).length % 4 = 0 := by
    rw [MTClient.b64_encode_length]; omega
  rw [MTClient.b64_decode, if_neg (by omega)]
  exact MTClient.b64_decode_go_encode x hx

/-- Witness for C1 at the concrete byte sequence `[104, 105, 33]`
(`"hi!"`). -/
theorem C1_b64_roundtrip_witness :
    (∀ b ∈ [104, 105, 33], b < 256) ∧
      MTClient.b64_decode (MTClient.b64_encode [104, 105, 33])
        = some [104, 105, 33] :=
  ⟨by decide, C1_b64_roundtrip [104, 105, 33] (by decide)⟩

/-- C9: for every input byte sequence of length `n`, the encoder output
has length exactly `4 * ⌈n/3⌉`, it consists of a run of characters of the
64-character alphabet followed by exactly `padCount n` copies of `=`
(`=` is not in the alphabet, so `=` occurs only in those trailing
positions): two `=` when `n % 3 = 1`, one when `n % 3 = 2`, none when
`n % 3 = 0` (client.cpp `b64_encode`). -/
theorem C9_encode_shape (x : List Nat) :
    (MTClient.b64_encode x).length = 4 * ((x.length + 2) / 3) ∧
    ∃ p, MTClient.b64_encode x = p ++ List.replicate (MTClient.padCount x.length) '='
      ∧ (∀ c ∈ p, c ∈ MTClient.B64) ∧ '=' ∉ p := by
  refine ⟨MTClient.b64_encode_length x, ?_⟩
  obtain ⟨p, hp, hmem⟩ := MTClient.b64_encode_shape x
  exact ⟨p, hp, hmem, fun hq => MTClient.eq_char_not_mem_B64 (hmem _ hq)⟩

/-- C6 counterexample: the claim says decoding must fail when a
non-trailing character is `=`, but `"AA==AAAA"` — whose characters at
positions 2 and 3 are `=` followed by four more characters — decodes
successfully (client.cpp `b64_decode` checks only the length and the
alphabet). -/
theorem C6_counterexample :
    MTClient.b64_decode ("AA==AAAA".toList) = some [0, 0, 0, 0] ∧
      "AA==AAAA".toList.getD 2 ' ' = '=' ∧
      2 + 2 < "AA==AAAA".toList.length := by decide

/-- C6 (amended): decoding fails exactly when the text length is not a
multiple of 4 or some character is outside the 64-character alphabet plus
`=`; otherwise it succeeds.  A `=` in a non-trailing position is not
rejected (client.cpp `b64_decode`). -/
theorem C6_decode_failure_iff (s : List Char) :
    MTClient.b64_decode s = none ↔
      s.length % 4 ≠ 0 ∨ ∃ c ∈ s, c ∉ MTClient.B64 ∧ c ≠ '=' := by
  unfold MTClient.b64_decode
  by_cases hlen : s.length % 4 = 0
  · rw [if_neg (by omega)]
    rw [MTClient.go_none_iff s hlen]
    constructor
    · rintro ⟨c, hc, h⟩
      exact Or.inr ⟨c, hc, (MTClient.REV_eq_255_iff c).mp h⟩
    · rintro (h | ⟨c, hc, h⟩)
      · exact absurd hlen h
      · exact ⟨c, hc, (MTClient.REV_eq_255_iff c).mpr h⟩
  · rw [if_pos (by omega)]
    simp [hlen]

namespace MTServer

/-- The fan-out loop sends exactly one copy of the frame to each client
of the subscriber snapshot, in order. -/
theorem fanout_eq_map_filter (clients : List ClientInfo) (msg : Message) :
    fanout clients msg
      = (subscribers_of clients msg.topic).map fun c => (c.sock, msg) := by
  induction clients with
  | nil => rfl
  | cons c cs ih =>
    simp only [fanout, subscribers_of, List.filter_cons] at ih ⊢
    by_cases h : (c.subscribed && c.topic == msg.topic) = true
    · rw [if_pos h, if_pos h]
      simp [ih]
    · rw [if_neg h, if_neg h]
      exact ih

/-- Re-subscribing with the same topic does not change the client list. -/
theorem subscribe_step_idem (clients : List ClientInfo) (sock : Nat)
    (t : String) :
    subscribe_step (subscribe_step clients sock t) sock t
      = subscribe_step clients sock t := by
  induction clients with
  | nil => rfl
  | cons c cs ih =>
    simp only [subscribe_step, List.map_cons, List.map_map] at *
    congr 1
    by_cases h : c.sock = sock
    · simp [h]
    · simp [h]

/-- After a subscribe, every entry with the subscriber's socket carries
the new topic and is marked subscribed. -/
theorem mem_subscribe_step (clients : List ClientInfo) (sock : Nat)
    (t : String) :
    ∀ c ∈ subscribe_step clients sock t,
      c.sock = sock → c.topic = t ∧ c.subscribed = true := by
  intro c hc hsock
  simp only [subscribe_step, List.mem_map] at hc
  obtain ⟨a, _, rfl⟩ := hc
  by_cases h : a.sock = sock
  · simp [h]
  · simp only [if_neg h] at hsock ⊢
    exact absurd hsock h

/-- A trace that still contains a `send` at lock depth 1 reports a send
under the lock. -/
theorem swl_append_send (xs : List (Nat × Message)) (s : Nat) (m : Message)
    (tail : List Ev) :
    sendsWhileLocked ((xs.map fun p => Ev.send p.1 p.2)
      ++ Ev.send s m :: tail) 1 = true := by
  cases xs with
  | nil => simp [sendsWhileLocked]
  | cons x xs => simp [sendsWhileLocked]

end MTServer

/-- C2 counterexample: with a single endpoint (socket 7) subscribed to
topic `T`, processing `PUBLISH(T, ...)` from socket 9 sends to socket 7 a
copy of the publish frame itself — its type is `TYPE_PUBLISH`, not the
delivery type `TYPE_MSG` — so the broker does not send a DELIVER frame
per subscriber as claimed (server.cpp lines 61-74 forward `msg`
unchanged; `TYPE_MSG` is never sent anywhere in server.cpp). -/
theorem C2_counterexample :
    (MTServer.handle_message [⟨7, "T", true⟩] 9
        ⟨MTServer.TYPE_PUBLISH, "T", 0, ""⟩).2.1
      = [(7, ⟨MTServer.TYPE_PUBLISH, "T", 0, ""⟩), (9, MTServer.ackOf "T")] ∧
    MTServer.TYPE_PUBLISH ≠ MTServer.TYPE_MSG := by decide

/-- C2 (amended): for every client list, processing a single
`PUBLISH(T, payload)` frame sends exactly N frames — one copy of the
received publish frame itself (type `TYPE_PUBLISH`, not a distinct
DELIVER/`TYPE_MSG` type) per endpoint subscribed to `T`, including the
publisher itself if its entry is subscribed to `T` — followed by exactly
one `ACK(T)` to the publisher, for every N including N = 0
(server.cpp `handle_client`, publish branch). -/
theorem C2_publish_fanout (clients : List MTServer.ClientInfo) (sock : Nat)
    (msg : MTServer.Message) (h : msg.type = MTServer.TYPE_PUBLISH) :
    (MTServer.handle_message clients sock msg).2.1
      = ((MTServer.subscribers_of clients msg.topic).map fun c => (c.sock, msg))
        ++ [(sock, MTServer.ackOf msg.topic)] ∧
    (MTServer.handle_message clients sock msg).2.1.length
      = (MTServer.subscribers_of clients msg.topic).length + 1 := by
  have hne : msg.type ≠ MTServer.TYPE_SUBSCRIBE := by rw [h]; decide
  refine ⟨?_, ?_⟩ <;>
    simp [MTServer.handle_message, hne, h, MTServer.fanout_eq_map_filter,
      MTServer.TYPE_SUBSCRIBE, MTServer.TYPE_PUBLISH]

/-- Witness for C2 at a concrete registry: three subscribed sockets on
topic `T` (7, 5 — the publisher — and not 9, which is unsubscribed, nor
8, which is on another topic). -/
theorem C2_publish_fanout_witness :
    ((⟨MTServer.TYPE_PUBLISH, "T", 8, "c3Vubnk="⟩ : MTServer.Message).type
        = MTServer.TYPE_PUBLISH) ∧
    ((MTServer.handle_message
          [⟨7, "T", true⟩, ⟨8, "U", true⟩, ⟨9, "T", false⟩, ⟨5, "T", true⟩] 5
          ⟨MTServer.TYPE_PUBLISH, "T", 8, "c3Vubnk="⟩).2.1
        = ((MTServer.subscribers_of
              [⟨7, "T", true⟩, ⟨8, "U", true⟩, ⟨9, "T", false⟩, ⟨5, "T", true⟩]
              (⟨MTServer.TYPE_PUBLISH, "T", 8, "c3Vubnk="⟩ : MTServer.Message).topic).map
            fun c => (c.sock, (⟨MTServer.TYPE_PUBLISH, "T", 8, "c3Vubnk="⟩ : MTServer.Message)))
          ++ [(5, MTServer.ackOf (⟨MTServer.TYPE_PUBLISH, "T", 8, "c3Vubnk="⟩ : MTServer.Message).topic)] ∧
      (MTServer.handle_message
          [⟨7, "T", true⟩, ⟨8, "U", true⟩, ⟨9, "T", false⟩, ⟨5, "T", true⟩] 5
          ⟨MTServer.TYPE_PUBLISH, "T", 8, "c3Vubnk="⟩).2.1.length
        = (MTServer.subscribers_of
            [⟨7, "T", true⟩, ⟨8, "U", true⟩, ⟨9, "T", false⟩, ⟨5, "T", true⟩]
            (⟨MTServer.TYPE_PUBLISH, "T", 8, "c3Vubnk="⟩ : MTServer.Message).topic).length + 1) :=
  ⟨by decide, C2_publish_fanout _ 5 _ (by decide)⟩

/-- C4 counterexample: endpoint socket 1 is subscribed to `"T"`; after its
`TERMINATE` frame is processed the handler has stopped (third component
`false`), yet the client list is unchanged and the subscriber snapshot
for `"T"` still contains the endpoint — its subscription was never
removed (server.cpp lines 75-79 only run `closesocket` and `return`;
nothing is ever erased from the shared `clients` vector). -/
theorem C4_counterexample :
    MTServer.subscribers_of
        (MTServer.handle_message [⟨1, "T", true⟩] 1
          ⟨MTServer.TYPE_TERM, "", 0, ""⟩).1 "T"
      = [⟨1, "T", true⟩] ∧
    (MTServer.handle_message [⟨1, "T", true⟩] 1
        ⟨MTServer.TYPE_TERM, "", 0, ""⟩).2.2 = false := by decide

/-- C4 (amended): after a `TERMINATE` frame from endpoint `E` is
processed, no further frames from `E`'s connection are dispatched (the
handler closes the socket and returns) and nothing is sent — but `E`'s
subscriptions are NOT removed: the shared client list is returned
unchanged, so the subscriber snapshot for `E`'s topic continues to
include `E` (the same holds on the disconnect path, server.cpp lines
41-45, which also performs no removal). -/
theorem C4_term_no_cleanup (clients : List MTServer.ClientInfo) (sock : Nat)
    (msg : MTServer.Message) (h : msg.type = MTServer.TYPE_TERM) :
    MTServer.handle_message clients sock msg = (clients, [], false) := by
  have h1 : msg.type ≠ MTServer.TYPE_SUBSCRIBE := by rw [h]; decide
  have h2 : msg.type ≠ MTServer.TYPE_PUBLISH := by rw [h]; decide
  simp [MTServer.handle_message, h1, h2, h, MTServer.TYPE_SUBSCRIBE,
    MTServer.TYPE_PUBLISH, MTServer.TYPE_TERM]

/-- Witness for C4 at a concrete registry and `TERMINATE` frame. -/
theorem C4_term_no_cleanup_witness :
    ((⟨MTServer.TYPE_TERM, "", 0, ""⟩ : MTServer.Message).type
        = MTServer.TYPE_TERM) ∧
    MTServer.handle_message [⟨1, "T", true⟩] 1 ⟨MTServer.TYPE_TERM, "", 0, ""⟩
      = ([⟨1, "T", true⟩], [], false) :=
  ⟨by decide, C4_term_no_cleanup _ 1 _ (by decide)⟩

/-- C5 counterexample: endpoint socket 1 is subscribed to topic `"A"`
(the snapshot for `"A"` contains it); after a `SUBSCRIBE` for the new
topic `"B"` the snapshot for `"A"` is empty — the earlier subscription
was removed, because each `ClientInfo` holds a single `topic` field that
the subscribe branch overwrites (server.cpp lines 47-54). -/
theorem C5_counterexample :
    MTServer.subscribers_of [⟨1, "A", true⟩] "A" = [⟨1, "A", true⟩] ∧
    MTServer.subscribers_of
        (MTServer.subscribe_step [⟨1, "A", true⟩] 1 "B") "A" = [] := by decide

/-- C5 (amended): processing `SUBSCRIBE(topic)` marks every entry with
the sender's socket as subscribed to exactly `topic` and replies with one
ACK; a repeated `SUBSCRIBE` for the same topic changes nothing except
producing another ACK — but an endpoint holds at most ONE topic
subscription: subscribing to a new topic overwrites (removes) the
previous one (server.cpp `handle_client`, subscribe branch). -/
theorem C5_subscribe_single (clients : List MTServer.ClientInfo) (sock : Nat)
    (msg : MTServer.Message) (h : msg.type = MTServer.TYPE_SUBSCRIBE) :
    (MTServer.handle_message clients sock msg).1
        = MTServer.subscribe_step clients sock msg.topic ∧
    (MTServer.handle_message clients sock msg).2.1
        = [(sock, MTServer.ackOf msg.topic)] ∧
    (MTServer.handle_message clients sock msg).2.2 = true ∧
    MTServer.subscribe_step (MTServer.subscribe_step clients sock msg.topic)
        sock msg.topic
      = MTServer.subscribe_step clients sock msg.topic ∧
    ∀ c ∈ MTServer.subscribe_step clients sock msg.topic,
      c.sock = sock → c.topic = msg.topic ∧ c.subscribed = true := by
  refine ⟨?_, ?_, ?_, MTServer.subscribe_step_idem clients sock msg.topic,
    MTServer.mem_subscribe_step clients sock msg.topic⟩ <;>
    simp [MTServer.handle_message, h]

/-- Witness for C5 at a concrete registry and `SUBSCRIBE` frame. -/
theorem C5_subscribe_single_witness :
    ((⟨MTServer.TYPE_SUBSCRIBE, "B", 0, ""⟩ : MTServer.Message).type
        = MTServer.TYPE_SUBSCRIBE) ∧
    ((MTServer.handle_message [⟨1, "A", true⟩] 1
          ⟨MTServer.TYPE_SUBSCRIBE, "B", 0, ""⟩).1
        = MTServer.subscribe_step [⟨1, "A", true⟩] 1
            (⟨MTServer.TYPE_SUBSCRIBE, "B", 0, ""⟩ : MTServer.Message).topic ∧
      (MTServer.handle_message [⟨1, "A", true⟩] 1
          ⟨MTServer.TYPE_SUBSCRIBE, "B", 0, ""⟩).2.1
        = [(1, MTServer.ackOf
            (⟨MTServer.TYPE_SUBSCRIBE, "B", 0, ""⟩ : MTServer.Message).topic)] ∧
      (MTServer.handle_message [⟨1, "A", true⟩] 1
          ⟨MTServer.TYPE_SUBSCRIBE, "B", 0, ""⟩).2.2 = true ∧
      MTServer.subscribe_step
          (MTServer.subscribe_step [⟨1, "A", true⟩] 1
            (⟨MTServer.TYPE_SUBSCRIBE, "B", 0, ""⟩ : MTServer.Message).topic) 1
          (⟨MTServer.TYPE_SUBSCRIBE, "B", 0, ""⟩ : MTServer.Message).topic
        = MTServer.subscribe_step [⟨1, "A", true⟩] 1
            (⟨MTServer.TYPE_SUBSCRIBE, "B", 0, ""⟩ : MTServer.Message).topic ∧
      ∀ c ∈ MTServer.subscribe_step [⟨1, "A", true⟩] 1
          (⟨MTServer.TYPE_SUBSCRIBE, "B", 0, ""⟩ : MTServer.Message).topic,
        c.sock = 1 →
          c.topic = (⟨MTServer.TYPE_SUBSCRIBE, "B", 0, ""⟩ : MTServer.Message).topic
            ∧ c.subscribed = true) :=
  ⟨by decide, C5_subscribe_single _ 1 _ (by decide)⟩

/-- C8 counterexample: with endpoint socket 7 subscribed to `"T"`, the
publish branch's event trace is `acquire`, `send` to subscriber 7,
`send` of the ACK, `release` — a send to a subscriber occurs strictly
between the lock acquisition and its release, refuting the claim that the
registry lock is released before any DELIVER is sent (server.cpp lines
64-73: the `lock_guard` scope encloses both sends). -/
theorem C8_counterexample :
    MTServer.publish_trace [⟨7, "T", true⟩] 9
        ⟨MTServer.TYPE_PUBLISH, "T", 0, ""⟩
      = [MTServer.Ev.acquire,
         MTServer.Ev.send 7 ⟨MTServer.TYPE_PUBLISH, "T", 0, ""⟩,
         MTServer.Ev.send 9 (MTServer.ackOf "T"),
         MTServer.Ev.release] ∧
    MTServer.sendsWhileLocked
        (MTServer.publish_trace [⟨7, "T", true⟩] 9
          ⟨MTServer.TYPE_PUBLISH, "T", 0, ""⟩) 0 = true := by decide

/-- C8 (amended): the publish branch performs every send — each fan-out
copy to a subscriber and the final ACK to the publisher — while holding
the registry mutex `clients_mtx`; the lock is released only after the ACK
send, so for every registry state and publish frame the trace contains a
send under the lock (server.cpp `handle_client`, publish branch). -/
theorem C8_sends_under_lock (clients : List MTServer.ClientInfo) (sock : Nat)
    (msg : MTServer.Message) :
    MTServer.sendsWhileLocked
      (MTServer.publish_trace clients sock msg) 0 = true := by
  have h := MTServer.swl_append_send (MTServer.fanout clients msg) sock
    (MTServer.ackOf msg.topic) [MTServer.Ev.release]
  simpa [MTServer.publish_trace, MTServer.sendsWhileLocked] using h

namespace MTClient

/-- The three header fields read back from a serialized header. -/
theorem ntohl_at_header (x y z : Nat) (rest : List Nat) (hx : x < 2 ^ 32)
    (hy : y < 2 ^ 32) (hz : z < 2 ^ 32) :
    ntohl_at ((be32 x ++ be32 y ++ be32 z) ++ rest) 0 = x ∧
    ntohl_at ((be32 x ++ be32 y ++ be32 z) ++ rest) 4 = y ∧
    ntohl_at ((be32 x ++ be32 y ++ be32 z) ++ rest) 8 = z := by
  unfold ntohl_at be32
  simp only [List.cons_append, List.nil_append, List.getD_cons_zero,
    List.getD_cons_succ]
  refine ⟨by omega, by omega, by omega⟩

/-- Reading a small value as a signed 32-bit `int` and casting it to
`size_t` gives the value back. -/
theorem toSizeT_toInt32_of_lt (n : Nat) (h : n < 2 ^ 31) :
    toSizeT (toInt32 n) = n := by
  unfold toInt32 toSizeT
  simp only [Nat.mod_eq_of_lt (show n < 2 ^ 32 by omega)]
  rw [if_pos h]
  omega

/-- Reading a small value as a signed 32-bit `int` is the identity. -/
theorem toInt32_of_lt (n : Nat) (h : n < 2 ^ 31) : toInt32 n = (n : Int) := by
  unfold toInt32
  simp only [Nat.mod_eq_of_lt (show n < 2 ^ 32 by omega)]
  rw [if_pos h]

end MTClient

/-- C3 counterexample: the broker and client binaries do NOT use the same
layout with mutually consistent type codes.  Every one of the five type
codes differs between client.cpp (`SUBSCRIBE..TERM` = 1..5) and
server.cpp (`TYPE_SUBSCRIBE` 10, `TYPE_PUBLISH` 11, `TYPE_MSG` 12,
`TYPE_ACK` 2, `TYPE_TERM` 3), and the client's serialized `SUBSCRIBE`
frame for the one-byte topic `"a"` is 13 bytes while the server always
`recv`s fixed 1096-byte `Message` structs. -/
theorem C3_counterexample :
    MTClient.SUBSCRIBE ≠ MTServer.TYPE_SUBSCRIBE ∧
    MTClient.PUBLISH ≠ MTServer.TYPE_PUBLISH ∧
    MTClient.MSG ≠ MTServer.TYPE_MSG ∧
    MTClient.ACK ≠ MTServer.TYPE_ACK ∧
    MTClient.TERM ≠ MTServer.TYPE_TERM ∧
    (MTClient.send_packet MTClient.SUBSCRIBE [97] []).length
      ≠ MTServer.MessageSize := by decide

/-- C3 (amended): the CLIENT binary serializes every `(type, topic,
payload)` triple as a 12-byte fixed header — three 32-bit integers in
network byte order: type, topic length, payload length — followed by the
raw topic bytes then the raw payload bytes with no padding or delimiters,
and this layout is self-consistent: the client's own datagram parser
recovers exactly the triple.  The server binary, however, uses a
different layout (fixed 1096-byte structs) and different type codes, so
the cross-binary consistency part of the claim fails (see the
counterexample). -/
theorem C3_client_wire_format (t : Nat) (topic payload : List Nat)
    (ht : t < 2 ^ 31) (htl : topic.length < 2 ^ 31)
    (hpl : payload.length < 2 ^ 31) :
    (MTClient.send_packet t topic payload).length
      = 12 + topic.length + payload.length ∧
    MTClient.send_packet t topic payload
      = MTClient.be32 t ++ MTClient.be32 topic.length
        ++ MTClient.be32 payload.length ++ topic ++ payload ∧
    MTClient.parse_datagram (MTClient.send_packet t topic payload)
      = some ((t : Int), topic, payload) := by
  have hmt : t % 2 ^ 32 = t := Nat.mod_eq_of_lt (by omega)
  have hmn : topic.length % 2 ^ 32 = topic.length := Nat.mod_eq_of_lt (by omega)
  have hmm : payload.length % 2 ^ 32 = payload.length :=
    Nat.mod_eq_of_lt (by omega)
  have hsplit : MTClient.send_packet t topic payload
      = (MTClient.be32 t ++ MTClient.be32 topic.length
          ++ MTClient.be32 payload.length) ++ (topic ++ payload) := by
    unfold MTClient.send_packet
    rw [hmt, hmn, hmm, List.append_assoc (MTClient.be32 t
      ++ MTClient.be32 topic.length ++ MTClient.be32 payload.length) topic payload]
  have hH : (MTClient.be32 t ++ MTClient.be32 topic.length
      ++ MTClient.be32 payload.length).length = 12 := by
    simp [MTClient.be32]
  have hlen : (MTClient.send_packet t topic payload).length
      = 12 + topic.length + payload.length := by
    rw [hsplit]
    simp only [List.length_append, hH]
    omega
  obtain ⟨h0, h4, h8⟩ := MTClient.ntohl_at_header t topic.length payload.length
    (topic ++ payload) (by omega) (by omega) (by omega)
  refine ⟨hlen, by rw [hsplit, ← List.append_assoc], ?_⟩
  rw [MTClient.parse_datagram]
  rw [if_neg (by omega)]
  simp only [hsplit, h0, h4, h8]
  rw [MTClient.toInt32_of_lt t ht,
    MTClient.toSizeT_toInt32_of_lt _ htl, MTClient.toSizeT_toInt32_of_lt _ hpl]
  have hneed : (12 + topic.length + payload.length) % 2 ^ 64
      = 12 + topic.length + payload.length := Nat.mod_eq_of_lt (by omega)
  rw [hneed]
  rw [if_neg (by rw [← hsplit]; omega)]
  have hdrop : ((MTClient.be32 t ++ MTClient.be32 topic.length
      ++ MTClient.be32 payload.length) ++ (topic ++ payload)).drop 12
      = topic ++ payload := List.drop_left' hH
  have hdrop2 : ((MTClient.be32 t ++ MTClient.be32 topic.length
      ++ MTClient.be32 payload.length) ++ (topic ++ payload)).drop
        ((12 + topic.length) % 2 ^ 64)
      = payload := by
    rw [Nat.mod_eq_of_lt (by omega)]
    rw [show 12 + topic.length
      = (MTClient.be32 t ++ MTClient.be32 topic.length
          ++ MTClient.be32 payload.length).length + topic.length by rw [hH]]
    rw [List.drop_append]
    exact List.drop_left' rfl
  rw [hdrop, hdrop2]
  rw [List.take_left' rfl, List.take_of_length_le (Nat.le_refl _)]

/-- Witness for C3 at the concrete frame
`(SUBSCRIBE, "ab", "")` (topic bytes 97, 98). -/
theorem C3_client_wire_format_witness :
    (MTClient.SUBSCRIBE < 2 ^ 31 ∧ [97, 98].length < 2 ^ 31
        ∧ ([] : List Nat).length < 2 ^ 31) ∧
    ((MTClient.send_packet MTClient.SUBSCRIBE [97, 98] []).length
        = 12 + [97, 98].length + ([] : List Nat).length ∧
      MTClient.send_packet MTClient.SUBSCRIBE [97, 98] []
        = MTClient.be32 MTClient.SUBSCRIBE ++ MTClient.be32 [97, 98].length
          ++ MTClient.be32 ([] : List Nat).length ++ [97, 98] ++ [] ∧
      MTClient.parse_datagram (MTClient.send_packet MTClient.SUBSCRIBE [97, 98] [])
        = some ((MTClient.SUBSCRIBE : Int), [97, 98], [])) :=
  ⟨by decide, C3_client_wire_format MTClient.SUBSCRIBE [97, 98] []
    (by decide) (by decide) (by decide)⟩

/-- C7 is a code bug: a datagram of exactly 111 bytes whose header
declares topic length `0xFFFFFFFF` and payload length 100 IS accepted by
`parse_datagram`, although the declared lengths (4294967295 + 100) vastly
exceed the 99 bytes that follow the header.  The reason: `(size_t)tlen`
sign-extends the `int` value −1 to `2^64 − 1` and
`need = 12 + (size_t)tlen + (size_t)plen` wraps modulo `2^64` to 111, so
the `n < need` malformedness check passes and the C code then calls
`topic.assign(data + 12, (size_t)tlen)` with a length of `2^64 − 1`,
reading far past the received buffer, instead of discarding the
datagram. -/
theorem C7_overflow_accepted :
    (MTClient.parse_datagram
      ([0, 0, 0, 1, 255, 255, 255, 255, 0, 0, 0, 100]
        ++ List.replicate 99 0)).isSome = true ∧
    ([0, 0, 0, 1, 255, 255, 255, 255, 0, 0, 0, 100]
        ++ (List.replicate 99 0 : List Nat)).length = 111 ∧
    MTClient.ntohl_at
        ([0, 0, 0, 1, 255, 255, 255, 255, 0, 0, 0, 100]
          ++ List.replicate 99 0) 4 = 4294967295 ∧
    MTClient.toSizeT (MTClient.toInt32 4294967295) = 2 ^ 64 - 1 ∧
    111 < 12 + 4294967295 + 100 := by decide

namespace A5

/-- Characters produced by one encoder chunk, as plain arithmetic. -/
theorem a5_chunk_chars (b0 b1 b2 : Nat) (h0 : b0 < 256) (h1 : b1 < 256)
    (h2 : b2 < 256) :
    (((b0 <<< 16) + (b1 <<< 8) + b2) >>> 18) &&& 63 = b0 / 4 ∧
    (((b0 <<< 16) + (b1 <<< 8) + b2) >>> 12) &&& 63 = b0 % 4 * 16 + b1 / 16 ∧
    (((b0 <<< 16) + (b1 <<< 8) + b2) >>> 6) &&& 63 = b1 % 16 * 4 + b2 / 64 ∧
    ((b0 <<< 16) + (b1 <<< 8) + b2) &&& 63 = b2 % 64 := by
  rw [Nat.shiftLeft_eq, Nat.shiftLeft_eq]
  refine ⟨?_, ?_, ?_, ?_⟩ <;>
    simp only [MTClient.shr, MTClient.and63] <;> omega

/-- Looking an alphabet character up with `strchr` finds its index. -/
theorem lookup_getD : ∀ e, e < 64 →
    lookup (base64_chars.getD e 'A') = some e := by decide

/-- Alphabet characters are distinct from the padding character. -/
theorem getD_ne_pad : ∀ e, e < 64 → base64_chars.getD e 'A' ≠ '=' := by decide

/-- The third/fourth-position lookup on an alphabet character. -/
theorem lookup_pad_getD (e : Nat) (he : e < 64) :
    lookup_pad (base64_chars.getD e 'A') = some e := by
  unfold lookup_pad
  rw [if_neg (getD_ne_pad e he)]
  exact lookup_getD e he

/-- Bytes reconstructed by the decoder quad, as plain arithmetic. -/
theorem a5_bytes (a b c d : Nat) (ha : a < 64) (hb : b < 64) (hc : c < 64)
    (hd : d < 64) :
    ((a <<< 2) ||| (b >>> 4)) % 256 = a * 4 + b / 16 ∧
    ((b <<< 4) ||| (c >>> 2)) % 256 = b % 16 * 16 + c / 4 ∧
    ((c <<< 6) ||| d) % 256 = c % 4 * 64 + d := by
  have e1 : (a <<< 2) ||| (b >>> 4) = a * 2 ^ 2 + b / 2 ^ 4 := by
    rw [MTClient.shr, MTClient.or_shift (k := 2) a (b / 2 ^ 4) (by omega)]
  have e2 : (b <<< 4) ||| (c >>> 2) = b * 2 ^ 4 + c / 2 ^ 2 := by
    rw [MTClient.shr, MTClient.or_shift (k := 4) b (c / 2 ^ 2) (by omega)]
  have e3 : (c <<< 6) ||| d = c * 2 ^ 6 + d := by
    rw [MTClient.or_shift (k := 6) c d (by omega)]
  rw [e1, e2, e3]
  refine ⟨by omega, by omega, by omega⟩

/-- Decoding a full encoder chunk prepended to further quads yields the
three original bytes in front of the decode of the rest. -/
theorem decode_quads_chunk (b0 b1 b2 : Nat) (h0 : b0 < 256) (h1 : b1 < 256)
    (h2 : b2 < 256) (rest : List Char) :
    decode_quads (encode_chunk b0 b1 b2 ++ rest)
      = (decode_quads rest).map fun r => b0 :: b1 :: b2 :: r := by
  obtain ⟨e1, e2, e3, e4⟩ := a5_chunk_chars b0 b1 b2 h0 h1 h2
  obtain ⟨t0, t1, t2⟩ := a5_bytes (b0 / 4) (b0 % 4 * 16 + b1 / 16)
    (b1 % 16 * 4 + b2 / 64) (b2 % 64) (by omega) (by omega) (by omega) (by omega)
  have hb0 : ((b0 / 4) <<< 2 ||| (b0 % 4 * 16 + b1 / 16) >>> 4) % 256 = b0 := by
    rw [t0]; omega
  have hb1 : ((b0 % 4 * 16 + b1 / 16) <<< 4
      ||| (b1 % 16 * 4 + b2 / 64) >>> 2) % 256 = b1 := by
    rw [t1]; omega
  have hb2 : ((b1 % 16 * 4 + b2 / 64) <<< 6 ||| b2 % 64) % 256 = b2 := by
    rw [t2]; omega
  simp only [encode_chunk, List.append_eq, List.cons_append, List.nil_append,
    decode_quads, e1, e2, e3, e4]
  rw [lookup_getD _ (by omega), lookup_getD _ (by omega),
    lookup_pad_getD _ (by omega), lookup_pad_getD _ (by omega)]
  cases hq : decode_quads rest with
  | none => rfl
  | some r => simp [hb0, hb1, hb2]

/-- Length of the raw chunk-loop output. -/
theorem encode_loop_length (s : List Nat) :
    (encode_loop s).length = 4 * ((s.length + 2) / 3) := by
  induction s using encode_loop.induct with
  | case1 => rfl
  | case2 b0 => simp [encode_loop, encode_chunk]
  | case3 b0 b1 => simp [encode_loop, encode_chunk]
  | case4 b0 b1 b2 rest ih =>
    simp only [encode_loop, List.length_append, ih, List.length_cons]
    have h4 : (encode_chunk b0 b1 b2).length = 4 := by simp [encode_chunk]
    rw [h4]
    omega

/-- Length of the final encoder output (the `=` overwriting preserves the
length). -/
theorem base64_encode_length (s : List Nat) :
    (base64_encode s).length = 4 * ((s.length + 2) / 3) := by
  unfold base64_encode
  rw [List.length_append, List.length_take, List.length_replicate,
    encode_loop_length]
  unfold padOf
  omega

/-- The encoder distributes over a leading full three-byte chunk. -/
theorem base64_encode_cons3 (b0 b1 b2 : Nat) (rest : List Nat) :
    base64_encode (b0 :: b1 :: b2 :: rest)
      = encode_chunk b0 b1 b2 ++ base64_encode rest := by
  unfold base64_encode
  simp only [encode_loop]
  have hpad : padOf (b0 :: b1 :: b2 :: rest).length = padOf rest.length := by
    simp only [List.length_cons, padOf]
    have h3 : (rest.length + 1 + 1 + 1) % 3 = rest.length % 3 := by omega
    simp only [h3]
  rw [hpad]
  have hlen4 : (encode_chunk b0 b1 b2).length = 4 := by simp [encode_chunk]
  have hp : padOf rest.length ≤ (encode_loop rest).length := by
    rw [encode_loop_length]
    unfold padOf
    omega
  rw [List.length_append, hlen4]
  have harith : 4 + (encode_loop rest).length - padOf rest.length
      = 4 + ((encode_loop rest).length - padOf rest.length) := by omega
  rw [harith, List.take_append_eq_append_take,
    List.take_of_length_le (by rw [hlen4]; omega), hlen4]
  have harith2 : 4 + ((encode_loop rest).length - padOf rest.length) - 4
      = (encode_loop rest).length - padOf rest.length := by omega
  rw [harith2, List.append_assoc]

end A5

namespace A5

/-- Round trip for a single trailing byte (two `=` of padding). -/
theorem rt_single (b0 : Nat) (h0 : b0 < 256) :
    base64_decode (base64_encode [b0]) = some [b0] := by
  obtain ⟨e1, e2, e3, e4⟩ := a5_chunk_chars b0 0 0 h0 (by omega) (by omega)
  have e2' : ((b0 <<< 16) + (0 <<< 8) + 0) >>> 12 &&& 63 = b0 % 4 * 16 := by
    rw [e2]; omega
  have henc : base64_encode [b0]
      = [base64_chars.getD (b0 / 4) 'A',
         base64_chars.getD (b0 % 4 * 16) 'A', '=', '='] := by
    unfold base64_encode
    simp only [encode_loop, encode_chunk, e1, e2']
    simp [padOf]
  rw [henc]
  obtain ⟨t0, t1, t2⟩ := a5_bytes (b0 / 4) (b0 % 4 * 16) 0 0
    (by omega) (by omega) (by omega) (by omega)
  have hb0 : ((b0 / 4) <<< 2 ||| (b0 % 4 * 16) >>> 4) % 256 = b0 := by
    rw [t0]; omega
  unfold base64_decode
  simp only [List.length_cons, List.length_nil]
  rw [if_neg (by omega), if_neg (by omega)]
  simp only [decode_quads, lookup_getD _ (show b0 / 4 < 64 by omega),
    lookup_getD _ (show b0 % 4 * 16 < 64 by omega)]
  simp [lookup_pad, hb0]

/-- Round trip for two trailing bytes (one `=` of padding). -/
theorem rt_two (b0 b1 : Nat) (h0 : b0 < 256) (h1 : b1 < 256) :
    base64_decode (base64_encode [b0, b1]) = some [b0, b1] := by
  obtain ⟨e1, e2, e3, e4⟩ := a5_chunk_chars b0 b1 0 h0 h1 (by omega)
  have e3' : ((b0 <<< 16) + (b1 <<< 8) + 0) >>> 6 &&& 63 = b1 % 16 * 4 := by
    rw [e3]; omega
  have henc : base64_encode [b0, b1]
      = [base64_chars.getD (b0 / 4) 'A',
         base64_chars.getD (b0 % 4 * 16 + b1 / 16) 'A',
         base64_chars.getD (b1 % 16 * 4) 'A', '='] := by
    unfold base64_encode
    simp only [encode_loop, encode_chunk, e1, e2, e3']
    simp [padOf]
  rw [henc]
  obtain ⟨t0, t1, t2⟩ := a5_bytes (b0 / 4) (b0 % 4 * 16 + b1 / 16)
    (b1 % 16 * 4) 0 (by omega) (by omega) (by omega) (by omega)
  have hb0 : ((b0 / 4) <<< 2 ||| (b0 % 4 * 16 + b1 / 16) >>> 4) % 256 = b0 := by
    rw [t0]; omega
  have hb1 : ((b0 % 4 * 16 + b1 / 16) <<< 4 ||| (b1 % 16 * 4) >>> 2) % 256
      = b1 := by
    rw [t1]; omega
  unfold base64_decode
  simp only [List.length_cons, List.length_nil]
  rw [if_neg (by omega), if_neg (by omega)]
  simp only [decode_quads, lookup_getD _ (show b0 / 4 < 64 by omega),
    lookup_getD _ (show b0 % 4 * 16 + b1 / 16 < 64 by omega)]
  rw [show lookup_pad (base64_chars.getD (b1 % 16 * 4) 'A')
    = some (b1 % 16 * 4) from lookup_pad_getD _ (by omega)]
  have hne : base64_chars.getD (b1 % 16 * 4) 'A' ≠ '=' :=
    getD_ne_pad _ (by omega)
  simp only [List.getD_eq_getElem?_getD] at hne
  simp [lookup_pad, hne, hb0, hb1]

/-- Round trip for a full trailing three-byte chunk (no padding). -/
theorem rt_three (b0 b1 b2 : Nat) (h0 : b0 < 256) (h1 : b1 < 256)
    (h2 : b2 < 256) :
    base64_decode (base64_encode [b0, b1, b2]) = some [b0, b1, b2] := by
  obtain ⟨e1, e2, e3, e4⟩ := a5_chunk_chars b0 b1 b2 h0 h1 h2
  have henc : base64_encode [b0, b1, b2]
      = [base64_chars.getD (b0 / 4) 'A',
         base64_chars.getD (b0 % 4 * 16 + b1 / 16) 'A',
         base64_chars.getD (b1 % 16 * 4 + b2 / 64) 'A',
         base64_chars.getD (b2 % 64) 'A'] := by
    unfold base64_encode
    simp only [encode_loop, encode_chunk, e1, e2, e3, e4]
    simp [padOf]
  rw [henc]
  obtain ⟨t0, t1, t2⟩ := a5_bytes (b0 / 4) (b0 % 4 * 16 + b1 / 16)
    (b1 % 16 * 4 + b2 / 64) (b2 % 64) (by omega) (by omega) (by omega) (by omega)
  have hb0 : ((b0 / 4) <<< 2 ||| (b0 % 4 * 16 + b1 / 16) >>> 4) % 256 = b0 := by
    rw [t0]; omega
  have hb1 : ((b0 % 4 * 16 + b1 / 16) <<< 4
      ||| (b1 % 16 * 4 + b2 / 64) >>> 2) % 256 = b1 := by
    rw [t1]; omega
  have hb2 : ((b1 % 16 * 4 + b2 / 64) <<< 6 ||| b2 % 64) % 256 = b2 := by
    rw [t2]; omega
  have hne3 : base64_chars.getD (b1 % 16 * 4 + b2 / 64) 'A' ≠ '=' :=
    getD_ne_pad _ (by omega)
  have hne4 : base64_chars.getD (b2 % 64) 'A' ≠ '=' :=
    getD_ne_pad _ (by omega)
  unfold base64_decode
  simp only [List.length_cons, List.length_nil]
  rw [if_neg (by omega), if_neg (by omega)]
  simp only [decode_quads, lookup_getD _ (show b0 / 4 < 64 by omega),
    lookup_getD _ (show b0 % 4 * 16 + b1 / 16 < 64 by omega),
    lookup_pad_getD _ (show b1 % 16 * 4 + b2 / 64 < 64 by omega),
    lookup_pad_getD _ (show b2 % 64 < 64 by omega)]
  simp only [List.getD_eq_getElem?_getD] at hne3 hne4
  simp [hne3, hne4, hb0, hb1, hb2]

/-- Taking three more elements from a three-cons list takes the tail
correspondingly. -/
theorem take_three_cons (b0 b1 b2 : Nat) (k : Nat) (q : List Nat) :
    (b0 :: b1 :: b2 :: q).take (3 + k) = b0 :: b1 :: b2 :: q.take k := by
  rw [show 3 + k = (k + 2) + 1 by omega, List.take_succ_cons,
    show k + 2 = (k + 1) + 1 by omega, List.take_succ_cons,
    List.take_succ_cons]

/-- The server-side decoder is a left inverse of the client-side encoder
on nonempty byte sequences. -/
theorem a5_roundtrip (s : List Nat) :
    s ≠ [] → (∀ b ∈ s, b < 256) → base64_decode (base64_encode s) = some s := by
  induction s using encode_loop.induct with
  | case1 => intro hs _; exact absurd rfl hs
  | case2 b0 => intro _ hb; exact rt_single b0 (hb _ (by simp))
  | case3 b0 b1 =>
    intro _ hb
    exact rt_two b0 b1 (hb _ (by simp)) (hb _ (by simp))
  | case4 b0 b1 b2 rest ih =>
    intro _ hb
    have h0 : b0 < 256 := hb _ (by simp)
    have h1 : b1 < 256 := hb _ (by simp)
    have h2 : b2 < 256 := hb _ (by simp)
    have hrb : ∀ b ∈ rest, b < 256 := fun b h => hb b (by simp [h])
    by_cases hr : rest = []
    · subst hr
      exact rt_three b0 b1 b2 h0 h1 h2
    · have IH := ih hr hrb
      rw [base64_encode_cons3]
      have hElen : (base64_encode rest).length = 4 * ((rest.length + 2) / 3) :=
        base64_encode_length rest
      have hE4 : 4 ≤ (base64_encode rest).length := by
        rw [hElen]
        have hpos : 1 ≤ rest.length := by
          cases rest with
          | nil => exact absurd rfl hr
          | cons a l => simp
        omega
      have hEmod : (base64_encode rest).length % 4 = 0 := by rw [hElen]; omega
      have hchunk4 : (encode_chunk b0 b1 b2).length = 4 := by simp [encode_chunk]
      have hgl : (encode_chunk b0 b1 b2 ++ base64_encode rest).length
          = 4 + (base64_encode rest).length := by
        rw [List.length_append, hchunk4]
      have hgetD1 : (encode_chunk b0 b1 b2 ++ base64_encode rest).getD
          (4 + (base64_encode rest).length - 1) ' '
          = (base64_encode rest).getD ((base64_encode rest).length - 1) ' ' := by
        rw [List.getD_append_right _ _ _ _ (by rw [hchunk4]; omega), hchunk4]
        congr 1
        omega
      have hgetD2 : (encode_chunk b0 b1 b2 ++ base64_encode rest).getD
          (4 + (base64_encode rest).length - 2) ' '
          = (base64_encode rest).getD ((base64_encode rest).length - 2) ' ' := by
        rw [List.getD_append_right _ _ _ _ (by rw [hchunk4]; omega), hchunk4]
        congr 1
        omega
      unfold base64_decode at IH ⊢
      rw [if_neg (by omega), if_neg (by omega)] at IH
      simp only [hgl]
      rw [if_neg (by omega), if_neg (by omega)]
      rw [hgetD1, hgetD2]
      rw [decode_quads_chunk b0 b1 b2 h0 h1 h2]
      obtain ⟨q, hq, hqt⟩ := Option.map_eq_some'.mp IH
      rw [hq]
      simp only [Option.map_some']
      have harith : (4 + (base64_encode rest).length) / 4 * 3
            - (if (base64_encode rest).getD ((base64_encode rest).length - 1) ' '
                = '=' then 1 else 0)
            - (if (base64_encode rest).getD ((base64_encode rest).length - 2) ' '
                = '=' then 1 else 0)
          = 3 + ((base64_encode rest).length / 4 * 3
            - (if (base64_encode rest).getD ((base64_encode rest).length - 1) ' '
                = '=' then 1 else 0)
            - (if (base64_encode rest).getD ((base64_encode rest).length - 2) ' '
                = '=' then 1 else 0)) := by
        have hX : (if (base64_encode rest).getD ((base64_encode rest).length - 1) ' '
            = '=' then 1 else 0) ≤ 1 := by split <;> omega
        have hY : (if (base64_encode rest).getD ((base64_encode rest).length - 2) ' '
            = '=' then 1 else 0) ≤ 1 := by split <;> omega
        omega
      rw [harith, take_three_cons, hqt]

end A5

/-- C10: in the echo/ack variant, the server-side decoder is a left
inverse of the client-side encoder: for every non-empty string `s` with
no NUL byte, `base64_decode(base64_encode(s))` equals `s`.  For the empty
string the round trip is not guaranteed: the decoder's padding checks
read `input[input_len - 1]` and `input[input_len - 2]`, i.e. before the
start of the buffer — undefined behaviour, modelled as `none`
(Assign 5 client.c `base64_encode`, server.c `base64_decode`). -/
theorem C10_a5_roundtrip (s : List Nat) (hs : s ≠ [])
    (hb : ∀ b ∈ s, 0 < b ∧ b < 256) :
    A5.base64_decode (A5.base64_encode s) = some s ∧
    A5.base64_decode (A5.base64_encode []) = none :=
  ⟨A5.a5_roundtrip s hs (fun b h => (hb b h).2), by decide⟩

/-- Witness for C10 at the concrete string `"hi"` (bytes 104, 105). -/
theorem C10_a5_roundtrip_witness :
    (([104, 105] : List Nat) ≠ [] ∧ ∀ b ∈ [104, 105], 0 < b ∧ b < 256) ∧
    (A5.base64_decode (A5.base64_encode [104, 105]) = some [104, 105] ∧
      A5.base64_decode (A5.base64_encode []) = none) :=
  ⟨⟨by decide, by decide⟩, C10_a5_roundtrip [104, 105] (by decide) (by decide)⟩
